import Mathlib

/-!
Verification of the timeline/animation engine of the `ai-media-editor`
repository against its natural-language specification.

The JavaScript sources are shallowly embedded here:

* numeric values (times, durations, volumes) are modelled as `ℚ`
  (the source uses JS numbers; the claims under study are arithmetic and
  structural, not about float rounding);
* JS objects become structures, and mutation becomes explicit state
  passing;
* `Date.now()` / random id generation become a logical counter threaded
  through the state (the produced ids are opaque and only compared for
  equality, exactly as in the source);
* operations the source lets throw are embedded as `Option`-returning
  functions (`none` = the exception).

Each namespace mirrors one source module:
`EditorStore` ↔ `src/renderer/store/useEditorStore.js`,
`Keyframes` ↔ `src/renderer/modules/keyframes` (KeyframeTrack),
`Audio` ↔ `src/renderer/modules/audio` (AudioClip),
`Transitions` ↔ the Transition class and `transitionTypes.js`,
`History` ↔ `src/renderer/modules/history/HistoryManager.js`,
`Project` ↔ `src/renderer/modules/project/ProjectManager.js`,
`MediaStore` ↔ the standalone media store (`createMediaStore`).
-/

namespace EditorStore

/-- A volume-automation keyframe as stored on a media item
(plain data: `{ id, time, value, easing }`). -/
structure VolumeKeyframe where
  id : String
  time : ℚ
  value : ℚ
  easing : String
  deriving Repr, DecidableEq

/-- A fade setting `{ enabled, duration }` as in `DEFAULT_AUDIO_ITEM`. -/
structure FadeSetting where
  enabled : Bool
  duration : ℚ
  deriving Repr, DecidableEq

/-- A media item (clip) stored on a track, mirroring the plain objects
built by `addMediaItem`.  Audio-related fields default to the
`DEFAULT_AUDIO_ITEM` values of the source. -/
structure Item where
  id : String
  name : String
  path : Option String
  type : String
  thumbnail : Option String
  startTime : ℚ
  duration : ℚ
  volume : ℚ := 1
  pan : ℚ := 0
  muted : Bool := false
  solo : Bool := false
  fadeIn : FadeSetting := ⟨false, 1/2⟩
  fadeOut : FadeSetting := ⟨false, 1/2⟩
  volumeKeyframes : List VolumeKeyframe := []
  deriving Repr, DecidableEq

/-- A track `{ id, name, type, items }`. -/
structure Track where
  id : String
  name : String
  type : String
  items : List Item
  deriving Repr, DecidableEq

/-- Global filter settings `{ brightness, contrast, saturation }`. -/
structure Filters where
  brightness : ℚ
  contrast : ℚ
  saturation : ℚ
  deriving Repr, DecidableEq

/-- Transition data as stored in the editor store's `transitions` array. -/
structure TransitionData where
  id : String
  type : String
  duration : ℚ
  easing : String
  fromClipId : Option String
  toClipId : Option String
  deriving Repr, DecidableEq

/-- The zustand store state of `useEditorStore`.  `nextId` models the
source of fresh ids produced by `generateId()`. -/
structure EditorState where
  tracks : List Track
  selectedItemId : Option String
  zoom : ℚ
  scrollPosition : ℚ
  playhead : ℚ
  duration : ℚ
  isPlaying : Bool
  playbackRate : ℚ
  filters : Filters
  transitions : List TransitionData
  projectId : Option String
  projectName : String
  isDirty : Bool
  nextId : Nat
  deriving Repr, DecidableEq

/-- The `generateId()` modelled by a counter. -/
def generateId (n : Nat) : String := "item-" ++ toString n

/-- The store's initial state (`create((set, get) => ({ ... }))`). -/
def initialState : EditorState where
  tracks :=
    [ { id := "video-track", name := "Video Track", type := "video", items := [] }
    , { id := "audio-track", name := "Audio Track", type := "audio", items := [] } ]
  selectedItemId := none
  zoom := 1
  scrollPosition := 0
  playhead := 0
  duration := 0
  isPlaying := false
  playbackRate := 1
  filters := { brightness := 0, contrast := 0, saturation := 0 }
  transitions := []
  projectId := none
  projectName := "Untitled Project"
  isDirty := false
  nextId := 0

/-- The (partial) object passed to `addMediaItem`.  A `none` field is a
key absent from the JS object.  Because the source spreads `...item`
*after* the defaulted keys, a present key always wins, even when falsy,
so the final value for each key is `spec.field.getD default`. -/
structure ItemSpec where
  id : Option String := none
  name : Option String := none
  path : Option String := none
  type : Option String := none
  thumbnail : Option String := none
  startTime : Option ℚ := none
  duration : Option ℚ := none
  volume : Option ℚ := none
  pan : Option ℚ := none
  muted : Option Bool := none
  solo : Option Bool := none
  volumeKeyframes : Option (List VolumeKeyframe) := none
  deriving Repr, DecidableEq

/-- The `addMediaItem(trackId, item)`: builds the new item (absent
`startTime` defaults to the current aggregate duration, absent
`duration` to 5), appends it to the matching track, and sets
`duration := max(duration, newItem.startTime + newItem.duration)`.
Returns the updated state and the returned id. -/
def addMediaItem (s : EditorState) (trackId : String) (spec : ItemSpec) :
    EditorState × String :=
  let newItem : Item :=
    { id := spec.id.getD (generateId s.nextId)
      name := spec.name.getD "Untitled"
      path := spec.path
      type := spec.type.getD "video"
      thumbnail := spec.thumbnail
      startTime := spec.startTime.getD s.duration
      duration := spec.duration.getD 5
      volume := spec.volume.getD 1
      pan := spec.pan.getD 0
      muted := spec.muted.getD false
      solo := spec.solo.getD false
      volumeKeyframes := spec.volumeKeyframes.getD [] }
  let tracks := s.tracks.map fun track =>
    if track.id = trackId then { track with items := track.items ++ [newItem] }
    else track
  let newDuration := max s.duration (newItem.startTime + newItem.duration)
  ({ s with tracks := tracks, duration := newDuration, nextId := s.nextId + 1 },
   newItem.id)

/-- One step of the `maxEndTime` recomputation:
`if (endTime > maxEndTime) maxEndTime = endTime`. -/
def bumpMax (m : ℚ) (it : Item) : ℚ :=
  if it.startTime + it.duration > m then it.startTime + it.duration else m

/-- The inner `track.items.forEach` of the recomputation loops. -/
def trackMax (m : ℚ) (tr : Track) : ℚ := tr.items.foldl bumpMax m

/-- The full recomputation `let maxEndTime = 0; tracks.forEach(...)`
shared by `removeMediaItem`, `moveMediaItem`, `reorderItems` and
`updateItemDuration`. -/
def maxEndTime (tracks : List Track) : ℚ := tracks.foldl trackMax 0

/-- The `removeMediaItem(trackId, itemId)`: filters the item out of the
matching track, recomputes `duration` and clears a matching
selection. -/
def removeMediaItem (s : EditorState) (trackId itemId : String) : EditorState :=
  let tracks := s.tracks.map fun track =>
    if track.id = trackId then
      { track with items := track.items.filter fun item => item.id ≠ itemId }
    else track
  { s with
    tracks := tracks
    duration := maxEndTime tracks
    selectedItemId :=
      if s.selectedItemId = some itemId then none else s.selectedItemId }

/-- The `moveMediaItem(trackId, itemId, newStartTime)`: clamps the start
time to `≥ 0` and recomputes `duration`. -/
def moveMediaItem (s : EditorState) (trackId itemId : String)
    (newStartTime : ℚ) : EditorState :=
  let tracks := s.tracks.map fun track =>
    if track.id = trackId then
      { track with items := track.items.map fun item =>
          if item.id = itemId then { item with startTime := max 0 newStartTime }
          else item }
    else track
  { s with tracks := tracks, duration := maxEndTime tracks }

/-- The `updateItemDuration(trackId, itemId, duration)`: clamps the new
duration to `≥ 0.1` and recomputes the aggregate duration. -/
def updateItemDuration (s : EditorState) (trackId itemId : String)
    (d : ℚ) : EditorState :=
  let tracks := s.tracks.map fun track =>
    if track.id = trackId then
      { track with items := track.items.map fun item =>
          if item.id = itemId then { item with duration := max (1/10) d }
          else item }
    else track
  { s with tracks := tracks, duration := maxEndTime tracks }

/-- JS `items.splice(toIndex, 0, removed)`, which clamps an
out-of-range index to the array length. -/
def spliceInsert (l : List Item) (i : Nat) (a : Item) : List Item :=
  l.take i ++ a :: l.drop i

/-- The two `splice` calls of `reorderItems`.  When `fromIndex` is out
of range the source splices `undefined` back in and then crashes with a
`TypeError` in the re-packing `map`; that failure is `none`. -/
def spliceMove (l : List Item) (fromIndex toIndex : Nat) : Option (List Item) :=
  match l.get? fromIndex with
  | none => none
  | some removed => some (spliceInsert (l.eraseIdx fromIndex) toIndex removed)

/-- The re-packing loop of `reorderItems`: `startTime` is rewritten to
the running total of the preceding durations. -/
def repackFrom (acc : ℚ) : List Item → List Item
  | [] => []
  | it :: rest => { it with startTime := acc } :: repackFrom (acc + it.duration) rest

/-- Per-track body of `reorderItems`. -/
def reorderTrackItems (trackId : String) (fromIndex toIndex : Nat)
    (track : Track) : Option Track :=
  if track.id = trackId then
    (spliceMove track.items fromIndex toIndex).map fun items =>
      { track with items := repackFrom 0 items }
  else some track

/-- Applies the per-track body to every track, failing if any single
track fails (the exception aborts the whole `set` callback). -/
def traverseTracks (f : Track → Option Track) : List Track → Option (List Track)
  | [] => some []
  | t :: ts =>
    match f t, traverseTracks f ts with
    | some t', some ts' => some (t' :: ts')
    | _, _ => none

/-- The `reorderItems(trackId, fromIndex, toIndex)`: reorders the items of
the matching track by index, re-packs their start times contiguously
from 0, and recomputes the aggregate duration.  `none` models the
exception raised on an out-of-range `fromIndex` (the zustand `set`
callback then never commits, leaving the state unchanged). -/
def reorderItems (s : EditorState) (trackId : String)
    (fromIndex toIndex : Nat) : Option EditorState :=
  (traverseTracks (reorderTrackItems trackId fromIndex toIndex) s.tracks).map
    fun tracks => { s with tracks := tracks, duration := maxEndTime tracks }

/-- The `splitClip(trackId, itemId)`: splits the item under the playhead.
Returns `none` (the source returns `null`, leaving the state untouched)
when the track or item is missing or the playhead is at or beyond the
item's boundaries. -/
def splitClip (s : EditorState) (trackId itemId : String) :
    Option (EditorState × String) :=
  match s.tracks.find? fun t => t.id = trackId with
  | none => none
  | some track =>
    match track.items.find? fun i => i.id = itemId with
    | none => none
    | some item =>
      let splitTime := s.playhead - item.startTime
      if splitTime ≤ 0 ∨ splitTime ≥ item.duration then none
      else
        let newItem : Item :=
          { item with
            id := generateId s.nextId
            name := item.name ++ " (split)"
            startTime := s.playhead
            duration := item.duration - splitTime }
        let tracks := s.tracks.map fun t =>
          if t.id = trackId then
            { t with items :=
                (t.items.map fun i =>
                  if i.id = itemId then { i with duration := splitTime } else i)
                ++ [newItem] }
          else t
        some ({ s with tracks := tracks, isDirty := true, nextId := s.nextId + 1 },
              newItem.id)

/-- The multiset of clip end times `startTime + duration` over all
tracks ("all clips on all tracks"). -/
def clipEnds (tracks : List Track) : List ℚ :=
  tracks.flatMap fun tr => tr.items.map fun it => it.startTime + it.duration

/-- One call of the store interface, for reasoning about call
sequences. -/
inductive EditOp where
  | add (trackId : String) (spec : ItemSpec)
  | remove (trackId itemId : String)
  | move (trackId itemId : String) (newStartTime : ℚ)
  | updateDuration (trackId itemId : String) (d : ℚ)
  deriving Repr

/-- Executes one store call. -/
def applyOp (s : EditorState) : EditOp → EditorState
  | .add trackId spec => (addMediaItem s trackId spec).1
  | .remove trackId itemId => removeMediaItem s trackId itemId
  | .move trackId itemId t => moveMediaItem s trackId itemId t
  | .updateDuration trackId itemId d => updateItemDuration s trackId itemId d

/-- Executes a sequence of store calls. -/
def applyOps (s : EditorState) (ops : List EditOp) : EditorState :=
  ops.foldl applyOp s

/-- A clip spec within the documented domain: an explicit `startTime`
is `≥ 0` and an explicit `duration` is `> 0` (the data model's clip
constraints). -/
def SpecValid (spec : ItemSpec) : Prop :=
  (∀ t ∈ spec.startTime, 0 ≤ t) ∧ (∀ d ∈ spec.duration, 0 < d)

/-- An `add` call is valid when its track exists and its spec is in the
documented domain; the other calls are unrestricted. -/
def ValidOp (s : EditorState) : EditOp → Prop
  | .add trackId spec => (∃ tr ∈ s.tracks, tr.id = trackId) ∧ SpecValid spec
  | _ => True

/-- Validity of a call sequence, each call judged in the state it runs
in. -/
def ValidOps (s : EditorState) : List EditOp → Prop
  | [] => True
  | op :: ops => ValidOp s op ∧ ValidOps (applyOp s op) ops

/-- Statement "the stored `duration` equals the maximum over all clips of
`startTime + duration`": every clip end is bounded by it, and it is
itself a clip end unless there are no clips at all (then it is 0). -/
def DurationExact (s : EditorState) : Prop :=
  (∀ e ∈ clipEnds s.tracks, e ≤ s.duration) ∧
    (s.duration ∈ clipEnds s.tracks ∨ s.duration = 0)

/-- All clips have a non-negative start and a positive duration. -/
def ItemsWF (s : EditorState) : Prop :=
  ∀ tr ∈ s.tracks, ∀ it ∈ tr.items, 0 ≤ it.startTime ∧ 0 < it.duration

end EditorStore

/-- JS `x || d` on a possibly-absent number: an absent key or the falsy
value `0` yields the default. -/
def jsOrQ (v : Option ℚ) (d : ℚ) : ℚ :=
  match v with
  | some x => if x = 0 then d else x
  | none => d

/-- JS `s || d` on a possibly-absent string: an absent key or the falsy
empty string yields the default. -/
def jsOrStr (v : Option String) (d : String) : String :=
  match v with
  | some s => if s = "" then d else s
  | none => d

/-- JS `x || null` on a possibly-absent string: absent, `null` and `""`
all collapse to `null`. -/
def jsOrNull (v : Option String) : Option String :=
  match v with
  | some s => if s = "" then none else some s
  | none => none

namespace Keyframes

/-- A keyframe `{ id, time, value, easing }` of a `KeyframeTrack`.  The
easing is kept as the string tag the source stores. -/
structure Keyframe where
  id : String
  time : ℚ
  value : ℚ
  easing : String
  deriving Repr, DecidableEq

/-- An entry of `PROPERTY_RANGE`. -/
structure PropertyRange where
  min : ℚ
  max : ℚ
  default : ℚ
  unit : String
  deriving Repr, DecidableEq

/-- The `PROPERTY_RANGE` table. -/
def propertyRange (property : String) : Option PropertyRange :=
  if property = "position_x" then some ⟨-1920, 1920, 0, "px"⟩
  else if property = "position_y" then some ⟨-1080, 1080, 0, "px"⟩
  else if property = "scale_x" then some ⟨0, 4, 1, "x"⟩
  else if property = "scale_y" then some ⟨0, 4, 1, "x"⟩
  else if property = "rotation" then some ⟨-360, 360, 0, "°"⟩
  else if property = "opacity" then some ⟨0, 1, 1, ""⟩
  else if property = "brightness" then some ⟨-100, 100, 0, ""⟩
  else if property = "contrast" then some ⟨-100, 100, 0, ""⟩
  else if property = "saturation" then some ⟨-100, 100, 0, ""⟩
  else if property = "hue" then some ⟨-180, 180, 0, "°"⟩
  else if property = "volume" then some ⟨0, 1, 1, ""⟩
  else if property = "pan" then some ⟨-1, 1, 0, ""⟩
  else none

/-- The `KeyframeTrack` class state. -/
structure KeyframeTrack where
  property : String
  keyframes : List Keyframe
  enabled : Bool
  range : PropertyRange
  deriving Repr, DecidableEq

/-- The `KeyframeTrack` constructor: `range` falls back to
`{min: 0, max: 1, default: 0, unit: ""}` for an unknown property. -/
def mkKeyframeTrack (property : String) (enabled : Option Bool := none) :
    KeyframeTrack where
  property := property
  keyframes := []
  enabled := enabled.getD true
  range := (propertyRange property).getD ⟨0, 1, 0, ""⟩

/-- The surrounding-keyframe search loop of `getValueAtTime`: walks the
list once, remembering the last keyframe with `time ≤ t` and stopping
at the first with `time > t`. -/
def findSurrounding (t : ℚ) : List Keyframe → Option Keyframe →
    Option Keyframe × Option Keyframe
  | [], before => (before, none)
  | kf :: rest, before =>
    if kf.time ≤ t then findSurrounding t rest (some kf)
    else (before, some kf)

/-- The `KeyframeTrack.getValueAtTime(time)`.  The easing table
`applyEasing` is passed in as `ease` (its elastic presets use
transcendental float functions; every claim under study is independent
of the table, quantifying over it). -/
def getValueAtTime (ease : ℚ → String → ℚ) (track : KeyframeTrack)
    (t : ℚ) : ℚ :=
  if ¬track.enabled ∨ track.keyframes.length = 0 then track.range.default
  else
    match findSurrounding t track.keyframes none with
    | (none, none) => track.range.default
    | (none, some a) => a.value
    | (some b, none) => b.value
    | (some b, some a) =>
      let dur := a.time - b.time
      if dur ≤ 0 then b.value
      else
        let progress := (t - b.time) / dur
        b.value + (a.value - b.value) * ease progress b.easing

end Keyframes

namespace Audio

/-- A volume keyframe carried by an `AudioClip`. -/
structure VolumeKeyframe where
  id : String
  time : ℚ
  value : ℚ
  easing : String
  deriving Repr, DecidableEq

/-- A fade setting `{ enabled, duration, type }`. -/
structure FadeSetting where
  enabled : Bool
  duration : ℚ
  type : String
  deriving Repr, DecidableEq

/-- The `DEFAULT_AUDIO_SETTINGS.fadeIn` / `.fadeOut`. -/
def defaultFade : FadeSetting := ⟨false, 1/2, "linear"⟩

/-- The `AudioClip` class state (the opaque `waveformData` /
`audioBuffer` handles carry no data relevant to any claim and are
omitted). -/
structure AudioClip where
  id : String
  name : String
  path : Option String
  type : String
  startTime : ℚ
  duration : ℚ
  trimStart : ℚ
  trimEnd : ℚ
  volume : ℚ
  pan : ℚ
  muted : Bool
  solo : Bool
  fadeIn : FadeSetting
  fadeOut : FadeSetting
  volumeKeyframes : List VolumeKeyframe
  state : String
  originalDuration : ℚ
  sampleRate : ℚ
  channels : ℚ
  deriving Repr, DecidableEq

/-- The (partial) options object of the `AudioClip` constructor. -/
structure AudioClipOptions where
  id : Option String := none
  name : Option String := none
  path : Option String := none
  startTime : Option ℚ := none
  duration : Option ℚ := none
  trimStart : Option ℚ := none
  trimEnd : Option ℚ := none
  volume : Option ℚ := none
  pan : Option ℚ := none
  muted : Option Bool := none
  solo : Option Bool := none
  fadeIn : Option FadeSetting := none
  fadeOut : Option FadeSetting := none
  volumeKeyframes : Option (List VolumeKeyframe) := none
  originalDuration : Option ℚ := none
  sampleRate : Option ℚ := none
  channels : Option ℚ := none
  deriving Repr, DecidableEq

/-- The `generateId()` of the audio module, modelled by a counter. -/
def audioGenerateId (n : Nat) : String := "audio-" ++ toString n

/-- The `AudioClip` constructor.  Numeric fields use `options.x || 0`
(the identity on `ℚ` values), `volume`/`pan`/`muted`/`solo` use `??`,
and the fades are merged over `DEFAULT_AUDIO_SETTINGS`. -/
def mkAudioClip (nextId : Nat) (options : AudioClipOptions) : AudioClip where
  id := jsOrStr options.id (audioGenerateId nextId)
  name := jsOrStr options.name "Untitled Audio"
  path := jsOrNull options.path
  type := "audio"
  startTime := jsOrQ options.startTime 0
  duration := jsOrQ options.duration 0
  trimStart := jsOrQ options.trimStart 0
  trimEnd := jsOrQ options.trimEnd 0
  volume := options.volume.getD 1
  pan := options.pan.getD 0
  muted := options.muted.getD false
  solo := options.solo.getD false
  fadeIn := options.fadeIn.getD defaultFade
  fadeOut := options.fadeOut.getD defaultFade
  volumeKeyframes := options.volumeKeyframes.getD []
  state := "loading"
  originalDuration := jsOrQ options.originalDuration 0
  sampleRate := jsOrQ options.sampleRate 0
  channels := jsOrQ options.channels 0

/-- The `AudioClip.getEffectiveDuration()`. -/
def getEffectiveDuration (c : AudioClip) : ℚ :=
  max 0 (c.originalDuration - c.trimStart - c.trimEnd)

/-- The `AudioClip.setTrim(trimStart, trimEnd)`. -/
def setTrim (c : AudioClip) (trimStart trimEnd : ℚ) : AudioClip :=
  let c' := { c with trimStart := max 0 trimStart, trimEnd := max 0 trimEnd }
  { c' with duration := getEffectiveDuration c' }

/-- The `AudioClip.split(splitTime)`: `none` is the `null` of an invalid
split point; on success returns the shrunk original clip and the newly
created clip (mutation of `this` made explicit). -/
def split (c : AudioClip) (splitTime : ℚ) (nextId : Nat) :
    Option (AudioClip × AudioClip) :=
  if splitTime ≤ 0 ∨ splitTime ≥ c.duration then none
  else
    let newClip := mkAudioClip nextId
      { name := some (c.name ++ " (split)")
        path := c.path
        startTime := some (c.startTime + splitTime)
        duration := some (c.duration - splitTime)
        trimStart := some (c.trimStart + splitTime)
        trimEnd := some c.trimEnd
        volume := some c.volume
        pan := some c.pan
        muted := some c.muted
        originalDuration := some c.originalDuration
        sampleRate := some c.sampleRate
        channels := some c.channels }
    let splitKeyframes :=
      (c.volumeKeyframes.filter (fun kf => kf.time ≥ splitTime)).map
        (fun kf => { kf with time := kf.time - splitTime })
    let newClip := { newClip with volumeKeyframes := splitKeyframes }
    let c' :=
      { c with
        duration := splitTime
        trimEnd := c.originalDuration - c.trimStart - splitTime
        volumeKeyframes := c.volumeKeyframes.filter (fun kf => kf.time < splitTime) }
    some (c', newClip)

end Audio

namespace Transitions

/-- An entry of `TRANSITION_CONFIG`; the `none` type has no
`defaultDuration` key. -/
structure TransitionConfig where
  name : String
  description : String
  minDuration : ℚ
  maxDuration : ℚ
  defaultDuration : Option ℚ
  deriving Repr, DecidableEq

/-- The `TRANSITION_CONFIG` table; `none` models
`TRANSITION_CONFIG[type] === undefined` for unknown types. -/
def transitionConfig (type : String) : Option TransitionConfig :=
  if type = "none" then
    some ⟨"None", "No transition", 0, 0, none⟩
  else if type = "crossfade" then
    some ⟨"Crossfade", "Smoothly blend between clips", 1/10, 5, some 1⟩
  else if type = "wipe_left" then
    some ⟨"Wipe Left", "Wipe from right to left", 1/5, 3, some (1/2)⟩
  else if type = "wipe_right" then
    some ⟨"Wipe Right", "Wipe from left to right", 1/5, 3, some (1/2)⟩
  else if type = "wipe_up" then
    some ⟨"Wipe Up", "Wipe from bottom to top", 1/5, 3, some (1/2)⟩
  else if type = "wipe_down" then
    some ⟨"Wipe Down", "Wipe from top to bottom", 1/5, 3, some (1/2)⟩
  else if type = "fade_black" then
    some ⟨"Fade to Black", "Fade out to black, then fade in", 3/10, 5, some 1⟩
  else if type = "fade_white" then
    some ⟨"Fade to White", "Fade out to white, then fade in", 3/10, 5, some 1⟩
  else none

/-- The `Transition` class state. -/
structure Transition where
  id : String
  type : String
  duration : ℚ
  easing : String
  fromClipId : Option String
  toClipId : Option String
  deriving Repr, DecidableEq

/-- The (partial) options object of the `Transition` constructor. -/
structure TransitionOptions where
  id : Option String := none
  type : Option String := none
  duration : Option ℚ := none
  easing : Option String := none
  fromClipId : Option String := none
  toClipId : Option String := none
  deriving Repr, DecidableEq

/-- The `generateId()` of the transitions module, modelled by a counter. -/
def transitionGenerateId (n : Nat) : String := "transition-" ++ toString n

/-- The `Transition.getDefaultDuration()`:
`TRANSITION_CONFIG[this.type]?.defaultDuration || 1.0`. -/
def getDefaultDuration (type : String) : ℚ :=
  match transitionConfig type with
  | some cfg => jsOrQ cfg.defaultDuration 1
  | none => 1

/-- The `Transition` constructor.  Note that `options.duration` is
taken as-is (`|| default` only handles an absent or zero value): no
clamping happens here. -/
def mkTransition (nextId : Nat) (options : TransitionOptions) : Transition :=
  let type := jsOrStr options.type "none"
  { id := jsOrStr options.id (transitionGenerateId nextId)
    type := type
    duration := jsOrQ options.duration (getDefaultDuration type)
    easing := jsOrStr options.easing "linear"
    fromClipId := jsOrNull options.fromClipId
    toClipId := jsOrNull options.toClipId }

/-- The `Transition.setType(type)`: for a configured type, switches the
type and clamps the previously stored duration into the new type's
`[minDuration, maxDuration]`; unknown types are ignored. -/
def setType (tr : Transition) (type : String) : Transition :=
  match transitionConfig type with
  | some cfg =>
    { tr with
      type := type
      duration := max cfg.minDuration (min cfg.maxDuration tr.duration) }
  | none => tr

/-- The `Transition.setDuration(duration)`: clamps into the current type's
configured range. -/
def setDuration (tr : Transition) (d : ℚ) : Transition :=
  match transitionConfig tr.type with
  | some cfg =>
    { tr with duration := max cfg.minDuration (min cfg.maxDuration d) }
  | none => tr

end Transitions

namespace History

/-- A history action.  `id`/`label`/`timestamp` are `none` when the JS
object lacks the key; `undoFn`/`redoFn` are the undo/redo closures as
explicit state transformers on an abstract editor state `σ`; `actions`
is the sub-action list of a batch (empty otherwise). -/
inductive HAction (σ : Type) : Type where
  | mk (id : Option String) (type : String) (label : Option String)
      (undoFn redoFn : Option (σ → σ)) (actions : List (HAction σ))
      (timestamp : Option Nat)

/-- The action id, when the key is present. -/
def HAction.id : HAction σ → Option String
  | .mk i _ _ _ _ _ _ => i

/-- The action's type tag. -/
def HAction.type : HAction σ → String
  | .mk _ t _ _ _ _ _ => t

/-- The action's label, when the key is present. -/
def HAction.label : HAction σ → Option String
  | .mk _ _ l _ _ _ _ => l

/-- The undo closure, when present. -/
def HAction.undoFn : HAction σ → Option (σ → σ)
  | .mk _ _ _ u _ _ _ => u

/-- The redo closure, when present. -/
def HAction.redoFn : HAction σ → Option (σ → σ)
  | .mk _ _ _ _ r _ _ => r

/-- The sub-actions of a batch action. -/
def HAction.actions : HAction σ → List (HAction σ)
  | .mk _ _ _ _ _ acts _ => acts

/-- The stamped timestamp, when present. -/
def HAction.timestamp : HAction σ → Option Nat
  | .mk _ _ _ _ _ _ ts => ts

/-- The `HistoryManager` state over an abstract editor state `σ`.
`clock` models both `Date.now()` and the id generator; the top of each
stack is the *end* of its list (JS `push`/`pop`). -/
structure HistoryManager (σ : Type) where
  maxSize : Nat
  undoStack : List (HAction σ)
  redoStack : List (HAction σ)
  isExecuting : Bool
  batchMode : Bool
  batchActions : List (HAction σ)
  clock : Nat

/-- The `generateId()` of the history module, modelled by a counter. -/
def historyGenerateId (n : Nat) : String := "action-" ++ toString n

/-- The `HistoryManager` constructor
(`options.maxSize || MAX_HISTORY_SIZE`, so an absent or zero size
falls back to 100). -/
def mkHistoryManager (σ : Type) (maxSize : Option Nat := none) :
    HistoryManager σ where
  maxSize := match maxSize with | some n => if n = 0 then 100 else n | none => 100
  undoStack := []
  redoStack := []
  isExecuting := false
  batchMode := false
  batchActions := []
  clock := 0

/-- The `while (undoStack.length > maxSize) undoStack.shift()` eviction
loop: oldest entries are dropped from the front. -/
def trimToMax (maxSize : Nat) : List α → List α
  | [] => []
  | a :: l => if (a :: l).length > maxSize then trimToMax maxSize l else a :: l

/-- The `{ id: generateId(), ...action, timestamp: Date.now() }`: the
spread keeps an id the action already carries, and the trailing
`timestamp:` key always wins. -/
def wrapAction (clock : Nat) : HAction σ → HAction σ
  | .mk id type label u r acts _ =>
    .mk (some (id.getD (historyGenerateId clock))) type label u r acts (some clock)

/-- The `HistoryManager.pushAction(action)`. -/
def pushAction (h : HistoryManager σ) (a : HAction σ) : HistoryManager σ :=
  if h.isExecuting then h
  else
    let historyAction := wrapAction h.clock a
    if h.batchMode then
      { h with batchActions := h.batchActions ++ [historyAction],
               clock := h.clock + 1 }
    else
      { h with
        undoStack := trimToMax h.maxSize (h.undoStack ++ [historyAction])
        redoStack := []
        clock := h.clock + 1 }

/-- The `HistoryManager.startBatch()`. -/
def startBatch (h : HistoryManager σ) : HistoryManager σ :=
  { h with batchMode := true, batchActions := [] }

/-- The `HistoryManager.endBatch(label)` (default label
"Multiple Changes"): an inactive batch or an empty collection commits
nothing; otherwise the collected actions are wrapped into one `batch`
action and pushed. -/
def endBatch (h : HistoryManager σ)
    (label : String := "Multiple Changes") : HistoryManager σ :=
  if ¬h.batchMode ∨ h.batchActions.isEmpty then
    { h with batchMode := false, batchActions := [] }
  else
    let batchAction : HAction σ :=
      .mk (some (historyGenerateId h.clock)) "batch" (some label) none none
        h.batchActions (some h.clock)
    pushAction
      { h with batchMode := false, batchActions := [], clock := h.clock + 1 }
      batchAction

/-- The `HistoryManager.cancelBatch()`. -/
def cancelBatch (h : HistoryManager σ) : HistoryManager σ :=
  { h with batchMode := false, batchActions := [] }

/-- The `if (subAction.undo) subAction.undo()` as a state transformer. -/
def applyUndoFn (a : HAction σ) (s : σ) : σ :=
  match a.undoFn with
  | some f => f s
  | none => s

/-- The `HistoryManager.undo()` threading the abstract editor state: pops
the top action, runs its undo effect (for a batch: the sub-actions'
undo effects in reverse order), moves the action to the redo stack and
reports whether an undo was performed.  The `isExecuting` guard is set
for the duration of the call and guaranteed clear afterwards
(`finally`), so it is `false` in the returned state. -/
def undo (h : HistoryManager σ) (s : σ) : HistoryManager σ × σ × Bool :=
  match h.undoStack.getLast? with
  | none => (h, s, false)
  | some a =>
    let s' :=
      if a.type = "batch" then
        a.actions.reverse.foldl (fun st sub => applyUndoFn sub st) s
      else applyUndoFn a s
    ({ h with
        undoStack := h.undoStack.dropLast
        redoStack := h.redoStack ++ [a]
        isExecuting := false },
     s', true)

end History

namespace Project

/-- The `DEFAULT_PROJECT.settings`. -/
structure ProjectSettings where
  width : ℚ
  height : ℚ
  fps : ℚ
  backgroundColor : String
  deriving Repr, DecidableEq

/-- A project snapshot carrying the schema-enumerated fields.  The
serialized JSON form of such a record is modelled by the record itself
(`JSON.parse ∘ JSON.stringify` is the identity on these
JSON-safe values).  `id` is `none` for the id-less `DEFAULT_PROJECT`. -/
structure ProjectData where
  version : String
  id : Option String
  name : String
  created : Option String
  modified : Option String
  settings : ProjectSettings
  tracks : List EditorStore.Track
  transitions : List EditorStore.TransitionData
  filters : EditorStore.Filters
  deriving Repr, DecidableEq

/-- The `PROJECT_VERSION`. -/
def projectVersion : String := "1.0.0"

/-- The `new Date().toISOString()` modelled by a logical clock reading. -/
def timestampString (n : Nat) : String := "time-" ++ toString n

/-- The `ProjectManager` state (listeners and the autosave timer are
UI-side effects outside the model). -/
structure ProjectManager where
  currentProject : Option ProjectData
  isDirty : Bool
  lastSaveTime : Option Nat
  autosaveEnabled : Bool
  clock : Nat
  deriving Repr, DecidableEq

/-- The `ProjectManager.migrateProject(project)`: reads
`project.version || '0.0.0'` into a local that no migration uses yet
and stamps the current schema version. -/
def migrateProject (p : ProjectData) : ProjectData :=
  { p with version := projectVersion }

/-- The `ProjectManager.save()`: `none` models the `'No project to save'`
exception; otherwise stamps `modified` and `version`, clears the dirty
flag, records the save time and returns the serialized snapshot. -/
def save (pm : ProjectManager) : Option (ProjectData × ProjectManager) :=
  match pm.currentProject with
  | none => none
  | some p =>
    let p' :=
      { p with
        modified := some (timestampString pm.clock)
        version := projectVersion }
    some (p',
      { pm with
        currentProject := some p'
        isDirty := false
        lastSaveTime := some pm.clock
        clock := pm.clock + 1 })

/-- The `ProjectManager.load(data)`: migrates, spreads the result over
`DEFAULT_PROJECT` (on a full record every default is overridden, which
the record type makes explicit) and restamps `modified`. -/
def load (pm : ProjectManager) (data : ProjectData) : ProjectData × ProjectManager :=
  let migrated := migrateProject data
  let current := { migrated with modified := some (timestampString pm.clock) }
  (current,
   { pm with currentProject := some current, isDirty := false,
             clock := pm.clock + 1 })

end Project

namespace MediaStore

/-- A media item of the standalone media store (`createMediaStore`). -/
structure MItem where
  id : String
  name : String
  path : String
  type : String
  duration : ℚ
  startTime : ℚ
  thumbnail : Option String
  width : ℚ
  height : ℚ
  deriving Repr, DecidableEq

/-- A track of the standalone media store. -/
structure MTrack where
  id : String
  type : String
  name : String
  items : List MItem
  deriving Repr, DecidableEq

/-- The standalone media store's state (the parts the claims range
over). -/
structure MediaState where
  tracks : List MTrack
  currentTime : ℚ
  duration : ℚ
  zoom : ℚ
  playheadPosition : ℚ
  isPlaying : Bool
  playbackRate : ℚ
  deriving Repr, DecidableEq

/-- The half-open containment test of `getItemAtTime` /
`getAllItemsAtTime`: `time >= startTime && time < startTime +
duration`. -/
def itemContains (time : ℚ) (item : MItem) : Bool :=
  decide (item.startTime ≤ time) && decide (time < item.startTime + item.duration)

/-- The `getItemAtTime(time, trackType)`: finds the first track of the
requested type, then the first item (in array order) containing the
time; `none` models the `null` results. -/
def getItemAtTime (s : MediaState) (time : ℚ)
    (trackType : String := "video") : Option MItem :=
  match s.tracks.find? fun t => t.type == trackType with
  | none => none
  | some track => track.items.find? (itemContains time)

end MediaStore

/-! Concrete sample data used by the witnesses below. -/

/-- A concrete audio clip with keyframes on both sides of time 1,
satisfying `trimStart + duration + trimEnd = originalDuration`. -/
def sampleAudioClip : Audio.AudioClip where
  id := "audio-7"
  name := "song"
  path := some "/tmp/song.mp3"
  type := "audio"
  startTime := 3
  duration := 4
  trimStart := 2
  trimEnd := 1
  volume := 1
  pan := 0
  muted := false
  solo := false
  fadeIn := Audio.defaultFade
  fadeOut := Audio.defaultFade
  volumeKeyframes :=
    [ ⟨"k1", 0, 1, "linear"⟩, ⟨"k2", 1, 1/2, "linear"⟩, ⟨"k3", 3, 1, "linear"⟩ ]
  state := "ready"
  originalDuration := 7
  sampleRate := 44100
  channels := 2

/-- The linear easing table row, used to instantiate the abstract
easing argument of `Keyframes.getValueAtTime` in witnesses. -/
def easeLin : ℚ → String → ℚ := fun p _ => p

/-- A concrete volume keyframe track with keyframes at times 0 and 2. -/
def sampleKfTrack : Keyframes.KeyframeTrack where
  property := "volume"
  keyframes := [⟨"a", 0, 0, "linear"⟩, ⟨"b", 2, 1, "linear"⟩]
  enabled := true
  range := ⟨0, 1, 1, ""⟩

/-- A concrete media-store state whose video track holds two
overlapping items, the *first* in array order having the *larger*
start time. -/
def sampleMediaState : MediaStore.MediaState where
  tracks :=
    [ { id := "video-track", type := "video", name := "Video Track"
        items :=
          [ { id := "A", name := "a.mp4", path := "/a.mp4", type := "video"
              duration := 5, startTime := 5, thumbnail := none
              width := 0, height := 0 }
          , { id := "B", name := "b.mp4", path := "/b.mp4", type := "video"
              duration := 20, startTime := 0, thumbnail := none
              width := 0, height := 0 } ] }
    , { id := "audio-track", type := "audio", name := "Audio Track", items := [] } ]
  currentTime := 0
  duration := 20
  zoom := 1
  playheadPosition := 0
  isPlaying := false
  playbackRate := 1

/-- A concrete project snapshot with two tracks, a clip with audio
settings and volume keyframes, and a transition. -/
def sampleProject : Project.ProjectData where
  version := "0.9.0"
  id := some "project-1"
  name := "Demo"
  created := some "time-0"
  modified := some "time-1"
  settings := { width := 1920, height := 1080, fps := 30, backgroundColor := "#000000" }
  tracks :=
    [ { id := "video-track", name := "Video Track", type := "video"
        items := [ { id := "c1", name := "clip", path := some "/c.mp4"
                     type := "video", thumbnail := none
                     startTime := 0, duration := 5 } ] }
    , { id := "audio-track", name := "Audio Track", type := "audio"
        items := [ { id := "c2", name := "beat", path := some "/b.mp3"
                     type := "audio", thumbnail := none
                     startTime := 0, duration := 3
                     volume := 4/5, pan := 0, muted := false, solo := true
                     fadeIn := ⟨true, 2⟩, fadeOut := ⟨false, 1/2⟩
                     volumeKeyframes := [⟨"k", 1, 1/2, "ease-in"⟩] } ] } ]
  transitions := [ ⟨"tr1", "crossfade", 1, "linear", some "c1", some "c2"⟩ ]
  filters := { brightness := 10, contrast := -5, saturation := 0 }

/-- A concrete editor state with three gapped clips on the video
track. -/
def sampleEditorState : EditorStore.EditorState :=
  { EditorStore.initialState with
    tracks :=
      [ { id := "video-track", name := "Video Track", type := "video"
          items :=
            [ { id := "i1", name := "one", path := none, type := "video"
                thumbnail := none, startTime := 0, duration := 2 }
            , { id := "i2", name := "two", path := none, type := "video"
                thumbnail := none, startTime := 4, duration := 3 }
            , { id := "i3", name := "three", path := none, type := "video"
                thumbnail := none, startTime := 10, duration := 1 } ] }
      , { id := "audio-track", name := "Audio Track", type := "audio", items := [] } ]
    duration := 11 }


/-- A concrete history sub-action incrementing the abstract state. -/
def xAct : History.HAction Nat :=
  .mk none "update_item" none (some fun n => n + 1) none [] none


/-- A concrete history sub-action doubling the abstract state. -/
def yAct : History.HAction Nat :=
  .mk none "move_item" (some "Move") (some fun n => n * 2) none [] none


/-! General helper lemmas. -/

/-- Folding `max` never goes below its starting value. -/
theorem foldl_max_init_le (l : List ℚ) : ∀ m : ℚ, m ≤ l.foldl max m := by
  induction l with
  | nil => intro m; simp
  | cons x xs ih =>
    intro m
    exact le_trans (le_max_left m x) (ih (max m x))

/-- Every list member is bounded by the `max` fold. -/
theorem foldl_max_le_of_mem (l : List ℚ) :
    ∀ (x : ℚ), x ∈ l → ∀ m : ℚ, x ≤ l.foldl max m := by
  induction l with
  | nil => intro x hx; cases hx
  | cons a as ih =>
    intro x hx m
    rcases List.mem_cons.1 hx with h | h
    · subst h
      exact le_trans (le_max_right m x) (foldl_max_init_le as (max m x))
    · exact ih x h (max m a)

/-- The `max` fold is the starting value or some list member. -/
theorem foldl_max_mem_or_init (l : List ℚ) :
    ∀ m : ℚ, l.foldl max m = m ∨ l.foldl max m ∈ l := by
  induction l with
  | nil => intro m; left; rfl
  | cons a as ih =>
    intro m
    rcases ih (max m a) with h | h
    · rcases max_choice m a with hm | hm
      · left; rw [List.foldl_cons, h, hm]
      · right; rw [List.foldl_cons, h, hm]; exact List.mem_cons_self a as
    · right; exact List.mem_cons_of_mem a h


/-- The `x || 0`-style defaulting with default 0 is the identity on `ℚ`. -/
theorem jsOrQ_some_zero (x : ℚ) : jsOrQ (some x) 0 = x := by
  simp only [jsOrQ]
  split <;> simp_all

/-- A `find?` returns the entry at the first index whose predicate
holds. -/
theorem find_eq_first_hit {α : Type} (p : α → Bool) :
    ∀ (l : List α) (i : Nat) (hi : i < l.length),
      p (l.get ⟨i, hi⟩) = true →
      (∀ j (hj : j < i), p (l.get ⟨j, hj.trans hi⟩) = false) →
      l.find? p = some (l.get ⟨i, hi⟩) := by
  intro l
  induction l with
  | nil => intro i hi; simp at hi
  | cons a as ih =>
    intro i hi hp hbefore
    cases i with
    | zero => exact List.find?_cons_of_pos _ hp
    | succ i =>
      have ha : p a = false := hbefore 0 (Nat.succ_pos i)
      rw [List.find?_cons_of_neg _ (by simp [ha])]
      exact ih i (Nat.lt_of_succ_lt_succ hi) hp
        (fun j hj => hbefore (j + 1) (Nat.succ_lt_succ hj))

/-- Claim C10: `getItemAtTime(time, trackType)` returns `null` when no
track of the requested type exists; with a matching track it returns
`null` when no item contains the time, and otherwise the item that
occurs earliest in the track's items array among those containing the
time (array order, not startTime order). -/
theorem getItemAtTime_array_order (s : MediaStore.MediaState) (time : ℚ)
    (trackType : String) :
    (s.tracks.find? (fun tr => tr.type == trackType) = none →
      MediaStore.getItemAtTime s time trackType = none) ∧
    (∀ track, s.tracks.find? (fun tr => tr.type == trackType) = some track →
      ((∀ it ∈ track.items, MediaStore.itemContains time it = false) →
        MediaStore.getItemAtTime s time trackType = none) ∧
      (∀ i (hi : i < track.items.length),
        MediaStore.itemContains time (track.items.get ⟨i, hi⟩) = true →
        (∀ j (hj : j < i),
          MediaStore.itemContains time (track.items.get ⟨j, hj.trans hi⟩) = false) →
        MediaStore.getItemAtTime s time trackType =
          some (track.items.get ⟨i, hi⟩))) := by
  constructor
  · intro h
    simp [MediaStore.getItemAtTime, h]
  · intro track h
    constructor
    · intro hall
      simp only [MediaStore.getItemAtTime, h]
      exact List.find?_eq_none.2 fun it hit => by simp [hall it hit]
    · intro i hi hp hbefore
      simp only [MediaStore.getItemAtTime, h]
      exact find_eq_first_hit _ track.items i hi hp hbefore

/-- Witness for C10: with two overlapping items where the first in
array order has the larger start time, the first one wins. -/
theorem getItemAtTime_array_order_witness :
    MediaStore.getItemAtTime sampleMediaState 6 "video" =
      some ⟨"A", "a.mp4", "/a.mp4", "video", 5, 5, none, 0, 0⟩ := by
  exact ((getItemAtTime_array_order sampleMediaState 6 "video").2
      { id := "video-track", type := "video", name := "Video Track"
        items :=
          [ ⟨"A", "a.mp4", "/a.mp4", "video", 5, 5, none, 0, 0⟩
          , ⟨"B", "b.mp4", "/b.mp4", "video", 20, 0, none, 0, 0⟩ ] }
      rfl).2 0 (by decide)
      (by simp only [List.get_cons_zero, MediaStore.itemContains]; norm_num)
      (fun j hj => absurd hj (Nat.not_lt_zero j))

/-- Counterexample for C5: a `Transition` constructed with an explicit
out-of-range duration (crossfade, 100s, configured range [0.1, 5])
stores it unclamped — the constructor never clamps. -/
theorem transition_constructor_skips_clamp :
    (Transitions.mkTransition 0
        { type := some "crossfade", duration := some 100 }).duration = 100 ∧
    Transitions.transitionConfig
        (Transitions.mkTransition 0
          { type := some "crossfade", duration := some 100 }).type =
      some ⟨"Crossfade", "Smoothly blend between clips", 1/10, 5, some 1⟩ ∧
    ¬ ((100 : ℚ) ≤ 5) := by
  refine ⟨rfl, rfl, by norm_num⟩

/-- Claim C5 (amended): construction stores the given duration without
clamping; it is `setType` (and `setDuration`) that clamp.  For every
configured type, `setType` switches the type and clamps the previously
stored duration into the new type's `[minDuration, maxDuration]`
(rather than resetting it to the type's default), landing inside the
range whenever the range is non-degenerate. -/
theorem setType_clamps_into_new_range (tr : Transitions.Transition)
    (ty : String) (cfg : Transitions.TransitionConfig)
    (hc : Transitions.transitionConfig ty = some cfg) :
    (Transitions.setType tr ty).type = ty ∧
    (Transitions.setType tr ty).duration =
      max cfg.minDuration (min cfg.maxDuration tr.duration) ∧
    (cfg.minDuration ≤ cfg.maxDuration →
      cfg.minDuration ≤ (Transitions.setType tr ty).duration ∧
      (Transitions.setType tr ty).duration ≤ cfg.maxDuration) := by
  have h1 : Transitions.setType tr ty =
      { tr with
        type := ty
        duration := max cfg.minDuration (min cfg.maxDuration tr.duration) } := by
    simp only [Transitions.setType, hc]
  rw [h1]
  exact ⟨rfl, rfl, fun hle =>
    ⟨le_max_left _ _, max_le hle (min_le_left _ _)⟩⟩

/-- Witness for C5 (amended): re-typing the unclamped 100s crossfade to
a wipe clamps 100 into [0.2, 3]. -/
theorem setType_clamps_into_new_range_witness :
    (Transitions.setType
        (Transitions.mkTransition 0 { type := some "crossfade", duration := some 100 })
        "wipe_left").duration = 3 := by
  have h := setType_clamps_into_new_range
    (Transitions.mkTransition 0 { type := some "crossfade", duration := some 100 })
    "wipe_left" ⟨"Wipe Left", "Wipe from right to left", 1/5, 3, some (1/2)⟩ rfl
  rw [h.2.1]
  norm_num [Transitions.mkTransition, jsOrQ, jsOrStr,
    Transitions.getDefaultDuration, Transitions.transitionConfig]

/-- Claim C3: a successful audio split at `0 < s < duration` gives the
new clip `trimStart + s` as trim start, transfers exactly the volume
keyframes with `time ≥ s` to the new clip rebased by `-s`, and leaves
exactly the keyframes with `time < s` on the original. -/
theorem audioClip_split_keyframes (c : Audio.AudioClip) (s : ℚ) (n : Nat)
    (h0 : 0 < s) (h1 : s < c.duration) :
    ∃ c' newClip, Audio.split c s n = some (c', newClip) ∧
      newClip.trimStart = c.trimStart + s ∧
      newClip.volumeKeyframes =
        (c.volumeKeyframes.filter (fun kf => kf.time ≥ s)).map
          (fun kf => { kf with time := kf.time - s }) ∧
      c'.volumeKeyframes = c.volumeKeyframes.filter (fun kf => kf.time < s) := by
  simp only [Audio.split, not_le.2 h0, not_le.2 h1, ge_iff_le, or_self, if_false]
  exact ⟨_, _, rfl, jsOrQ_some_zero _, rfl, rfl⟩

/-- Witness for C3 on a concrete clip with keyframes at 0, 1 and 3,
split at 1. -/
theorem audioClip_split_keyframes_witness :
    ∃ c' newClip, Audio.split sampleAudioClip 1 0 = some (c', newClip) ∧
      newClip.trimStart = sampleAudioClip.trimStart + 1 ∧
      newClip.volumeKeyframes =
        (sampleAudioClip.volumeKeyframes.filter (fun kf => kf.time ≥ 1)).map
          (fun kf => { kf with time := kf.time - 1 }) ∧
      c'.volumeKeyframes =
        sampleAudioClip.volumeKeyframes.filter (fun kf => kf.time < 1) :=
  audioClip_split_keyframes sampleAudioClip 1 0 (by norm_num)
    (by norm_num [sampleAudioClip])

/-- Claim C9: when `trimStart + duration + trimEnd = originalDuration`
holds before a successful split, it holds for both resulting clips:
the original's trim end is recomputed as
`originalDuration - trimStart - s` and the new clip gets
`trimStart + s`, `duration - s` and the original's pre-split trim
end. -/
theorem audioClip_split_trim_identity (c : Audio.AudioClip) (s : ℚ) (n : Nat)
    (hinv : c.trimStart + c.duration + c.trimEnd = c.originalDuration)
    (h0 : 0 < s) (h1 : s < c.duration) :
    ∃ c' newClip, Audio.split c s n = some (c', newClip) ∧
      c'.trimEnd = c.originalDuration - c.trimStart - s ∧
      newClip.trimStart = c.trimStart + s ∧
      newClip.duration = c.duration - s ∧
      newClip.trimEnd = c.trimEnd ∧
      c'.trimStart + c'.duration + c'.trimEnd = c'.originalDuration ∧
      newClip.trimStart + newClip.duration + newClip.trimEnd =
        newClip.originalDuration := by
  simp only [Audio.split, not_le.2 h0, not_le.2 h1, or_self, if_false]
  refine ⟨_, _, rfl, rfl, jsOrQ_some_zero _, jsOrQ_some_zero _, jsOrQ_some_zero _,
    by ring, ?_⟩
  simp only [Audio.mkAudioClip, jsOrQ_some_zero]
  linarith

/-- Witness for C9 on the same concrete clip (2 + 4 + 1 = 7). -/
theorem audioClip_split_trim_identity_witness :
    ∃ c' newClip, Audio.split sampleAudioClip 1 0 = some (c', newClip) ∧
      c'.trimEnd = sampleAudioClip.originalDuration - sampleAudioClip.trimStart - 1 ∧
      newClip.trimStart = sampleAudioClip.trimStart + 1 ∧
      newClip.duration = sampleAudioClip.duration - 1 ∧
      newClip.trimEnd = sampleAudioClip.trimEnd ∧
      c'.trimStart + c'.duration + c'.trimEnd = c'.originalDuration ∧
      newClip.trimStart + newClip.duration + newClip.trimEnd =
        newClip.originalDuration :=
  audioClip_split_trim_identity sampleAudioClip 1 0 (by norm_num [sampleAudioClip])
    (by norm_num) (by norm_num [sampleAudioClip])

/-- Claim C4 (code bug, evaluated at the failing input): `addMediaItem`
called with a track id matching no track adds no clip — the tracks are
unchanged and there are no clips at all — yet it still raises the
stored aggregate `duration` from 0 to 5, so a failed add corrupts the
aggregate instead of being a safe no-op. -/
theorem addMediaItem_unknown_track_inflates_duration :
    (EditorStore.addMediaItem EditorStore.initialState "missing-track"
        { duration := some 5 }).1.tracks = EditorStore.initialState.tracks ∧
    EditorStore.clipEnds (EditorStore.addMediaItem EditorStore.initialState
        "missing-track" { duration := some 5 }).1.tracks = [] ∧
    EditorStore.initialState.duration = 0 ∧
    (EditorStore.addMediaItem EditorStore.initialState "missing-track"
        { duration := some 5 }).1.duration = 5 := by
  refine ⟨?_, ?_, rfl, ?_⟩
  · simp [EditorStore.addMediaItem, EditorStore.initialState]
  · simp [EditorStore.addMediaItem, EditorStore.clipEnds, EditorStore.initialState]
  · simp only [EditorStore.addMediaItem, EditorStore.initialState, Option.getD]
    norm_num

/-- Claim C8: loading the snapshot produced by `save` reproduces every
schema-enumerated field of the saved project — tracks (with clips,
audio settings and volume keyframes), transitions, filters, settings,
name and id — while `modified` is restamped (and `version` carries the
current schema version, which `save` itself had already stamped). -/
theorem project_save_load_roundtrip (pm pm2 : Project.ProjectManager)
    (p : Project.ProjectData) (hp : pm.currentProject = some p) :
    ∃ j pm', Project.save pm = some (j, pm') ∧
      (Project.load pm2 j).1.tracks = p.tracks ∧
      (Project.load pm2 j).1.transitions = p.transitions ∧
      (Project.load pm2 j).1.filters = p.filters ∧
      (Project.load pm2 j).1.settings = p.settings ∧
      (Project.load pm2 j).1.name = p.name ∧
      (Project.load pm2 j).1.id = p.id ∧
      (Project.load pm2 j).1.created = p.created ∧
      (Project.load pm2 j).1.version = Project.projectVersion ∧
      (Project.load pm2 j).1.modified = some (Project.timestampString pm2.clock) := by
  have hsave : Project.save pm =
      some
        ({ p with
            modified := some (Project.timestampString pm.clock)
            version := Project.projectVersion },
         { pm with
            currentProject :=
              some { p with
                      modified := some (Project.timestampString pm.clock)
                      version := Project.projectVersion }
            isDirty := false
            lastSaveTime := some pm.clock
            clock := pm.clock + 1 }) := by
    simp only [Project.save, hp]
  refine ⟨_, _, hsave, ?_, ?_, ?_, ?_, ?_, ?_, ?_, ?_, ?_⟩ <;>
    simp [Project.load, Project.migrateProject]

/-- Witness for C8 on a concrete two-track project with keyframed
audio and a transition. -/
theorem project_save_load_roundtrip_witness :
    ∃ j pm',
      Project.save ⟨some sampleProject, true, none, true, 5⟩ = some (j, pm') ∧
      (Project.load ⟨none, false, none, true, 9⟩ j).1.tracks = sampleProject.tracks ∧
      (Project.load ⟨none, false, none, true, 9⟩ j).1.transitions =
        sampleProject.transitions ∧
      (Project.load ⟨none, false, none, true, 9⟩ j).1.filters = sampleProject.filters ∧
      (Project.load ⟨none, false, none, true, 9⟩ j).1.settings =
        sampleProject.settings ∧
      (Project.load ⟨none, false, none, true, 9⟩ j).1.name = sampleProject.name ∧
      (Project.load ⟨none, false, none, true, 9⟩ j).1.id = sampleProject.id ∧
      (Project.load ⟨none, false, none, true, 9⟩ j).1.created =
        sampleProject.created ∧
      (Project.load ⟨none, false, none, true, 9⟩ j).1.version =
        Project.projectVersion ∧
      (Project.load ⟨none, false, none, true, 9⟩ j).1.modified =
        some (Project.timestampString 9) :=
  project_save_load_roundtrip ⟨some sampleProject, true, none, true, 5⟩
    ⟨none, false, none, true, 9⟩ sampleProject rfl

/-- Re-packing preserves the number of items. -/
theorem repackFrom_length (l : List EditorStore.Item) :
    ∀ acc : ℚ, (EditorStore.repackFrom acc l).length = l.length := by
  induction l with
  | nil => intro acc; rfl
  | cons it rest ih => intro acc; simp [EditorStore.repackFrom, ih]

/-- After re-packing from `acc`, every item starts at `acc` plus the
durations of the items before it. -/
theorem repackFrom_startTime (l : List EditorStore.Item) :
    ∀ (acc : ℚ) (k : Nat) (hk : k < (EditorStore.repackFrom acc l).length),
      ((EditorStore.repackFrom acc l).get ⟨k, hk⟩).startTime =
        acc + (((EditorStore.repackFrom acc l).take k).map
          EditorStore.Item.duration).sum := by
  induction l with
  | nil => intro acc k hk; simp [EditorStore.repackFrom] at hk
  | cons it rest ih =>
    intro acc k hk
    cases k with
    | zero => simp [EditorStore.repackFrom]
    | succ k =>
      have hk' : k < (EditorStore.repackFrom (acc + it.duration) rest).length := by
        simpa [EditorStore.repackFrom] using hk
      simp only [EditorStore.repackFrom, List.get_cons_succ, List.take_succ_cons,
        List.map_cons, List.sum_cons]
      rw [ih (acc + it.duration) k hk']
      ring

/-- The track traversal succeeds when every track body succeeds. -/
theorem traverseTracks_isSome (f : EditorStore.Track → Option EditorStore.Track) :
    ∀ l : List EditorStore.Track, (∀ a ∈ l, (f a).isSome) →
      ∃ l', EditorStore.traverseTracks f l = some l' := by
  intro l
  induction l with
  | nil => intro _; exact ⟨[], rfl⟩
  | cons t ts ih =>
    intro h
    obtain ⟨t', ht⟩ := Option.isSome_iff_exists.1 (h t (List.mem_cons_self t ts))
    obtain ⟨ts', hts⟩ := ih fun a ha => h a (List.mem_cons_of_mem t ha)
    exact ⟨t' :: ts', by simp [EditorStore.traverseTracks, ht, hts]⟩

/-- Every track in a successful traversal's output is the image of a
track of the input. -/
theorem traverseTracks_mem (f : EditorStore.Track → Option EditorStore.Track) :
    ∀ (l l' : List EditorStore.Track),
      EditorStore.traverseTracks f l = some l' →
      ∀ b ∈ l', ∃ a ∈ l, f a = some b := by
  intro l
  induction l with
  | nil =>
    intro l' h b hb
    simp only [EditorStore.traverseTracks, Option.some.injEq] at h
    subst h; cases hb
  | cons t ts ih =>
    intro l' h b hb
    simp only [EditorStore.traverseTracks] at h
    cases hft : f t with
    | none => rw [hft] at h; cases h
    | some t' =>
      cases hts : EditorStore.traverseTracks f ts with
      | none => rw [hft, hts] at h; cases h
      | some ts' =>
        rw [hft, hts] at h
        injection h with h
        subst h
        rcases List.mem_cons.1 hb with rfl | hb
        · exact ⟨t, List.mem_cons_self t ts, hft⟩
        · obtain ⟨a, ha, hfa⟩ := ih ts' hts b hb
          exact ⟨a, List.mem_cons_of_mem t ha, hfa⟩

/-- Claim C7: for a valid `fromIndex` (and any `toIndex`),
`reorderItems` succeeds and afterwards every track matching the id is
contiguously packed from 0: each item's `startTime` equals the sum of
the durations of the items before it in the new order. -/
theorem reorderItems_contiguous (s : EditorStore.EditorState) (trackId : String)
    (fromIndex toIndex : Nat)
    (hvalid : ∀ tr ∈ s.tracks, tr.id = trackId → fromIndex < tr.items.length) :
    ∃ s', EditorStore.reorderItems s trackId fromIndex toIndex = some s' ∧
      ∀ tr ∈ s'.tracks, tr.id = trackId →
        ∀ k (hk : k < tr.items.length),
          (tr.items.get ⟨k, hk⟩).startTime =
            ((tr.items.take k).map EditorStore.Item.duration).sum := by
  have hall : ∀ tr ∈ s.tracks,
      (EditorStore.reorderTrackItems trackId fromIndex toIndex tr).isSome := by
    intro tr htr
    by_cases hid : tr.id = trackId
    · have hlt := hvalid tr htr hid
      have hget : tr.items[fromIndex]? = some tr.items[fromIndex] :=
        List.getElem?_eq_getElem hlt
      simp [EditorStore.reorderTrackItems, hid, EditorStore.spliceMove, hget]
    · simp [EditorStore.reorderTrackItems, hid]
  obtain ⟨l', hl'⟩ := traverseTracks_isSome _ s.tracks hall
  refine ⟨{ s with tracks := l', duration := EditorStore.maxEndTime l' }, ?_, ?_⟩
  · simp [EditorStore.reorderItems, hl']
  · intro tr htr hid k hk
    obtain ⟨a, _, hfa⟩ := traverseTracks_mem _ s.tracks l' hl' tr htr
    by_cases haid : a.id = trackId
    · unfold EditorStore.reorderTrackItems at hfa
      rw [if_pos haid] at hfa
      cases hsp : EditorStore.spliceMove a.items fromIndex toIndex with
      | none => rw [hsp] at hfa; cases hfa
      | some items =>
        rw [hsp] at hfa
        simp only [Option.map_some', Option.some.injEq] at hfa
        subst hfa
        have h0 := repackFrom_startTime items 0 k hk
        simpa using h0
    · unfold EditorStore.reorderTrackItems at hfa
      rw [if_neg haid] at hfa
      injection hfa with hfa
      exact absurd (hfa ▸ hid) haid

/-- Witness for C7: moving item 0 to position 2 on the sample state
succeeds and repacks the track back-to-back from 0. -/
theorem reorderItems_contiguous_witness :
    ∃ s', EditorStore.reorderItems sampleEditorState "video-track" 0 2 = some s' ∧
      ∀ tr ∈ s'.tracks, tr.id = "video-track" →
        ∀ k (hk : k < tr.items.length),
          (tr.items.get ⟨k, hk⟩).startTime =
            ((tr.items.take k).map EditorStore.Item.duration).sum := by
  refine reorderItems_contiguous sampleEditorState "video-track" 0 2 ?_
  intro tr htr hid
  simp only [sampleEditorState, EditorStore.initialState, List.mem_cons,
    List.not_mem_nil, or_false] at htr
  rcases htr with rfl | rfl
  · simp
  · simp [EditorStore.initialState] at hid

/-- The eviction loop drops exactly the oldest entries beyond the
cap. -/
theorem trimToMax_eq_drop {α : Type} (maxSize : Nat) :
    ∀ l : List α, History.trimToMax maxSize l = l.drop (l.length - maxSize) := by
  intro l
  induction l with
  | nil => simp [History.trimToMax]
  | cons a l ih =>
    simp only [History.trimToMax]
    by_cases h : (a :: l).length > maxSize
    · rw [if_pos h, ih]
      have hs : (a :: l).length - maxSize = (l.length - maxSize) + 1 := by
        simp only [List.length_cons] at h ⊢
        omega
      rw [hs, List.drop_succ_cons]
    · rw [if_neg h]
      have hs : (a :: l).length - maxSize = 0 := by
        simp only [List.length_cons] at h ⊢
        omega
      rw [hs, List.drop_zero]

/-- Wrapping an action with a fresh id and timestamp does not change
its undo effect. -/
theorem applyUndoFn_wrapAction {σ : Type} (c : Nat) (a : History.HAction σ)
    (s : σ) :
    History.applyUndoFn (History.wrapAction c a) s = History.applyUndoFn a s := by
  cases a
  rfl

/-- Wrapping keeps the undo closure itself. -/
theorem wrapAction_undoFn {σ : Type} (c : Nat) (a : History.HAction σ) :
    (History.wrapAction c a).undoFn = a.undoFn := by
  cases a
  rfl

/-- Claim C6: from any quiescent history state,
`startBatch(); pushAction(X); pushAction(Y); endBatch(L)` adds exactly
one entry to the undo stack (evicting the oldest entry only beyond the
size cap) — a `batch` entry carrying label `L` — and one `undo()` then
runs the undo effects of both collected sub-actions in reverse
collection order (`Y` then `X`) and reports success; an `endBatch` with
no collected actions commits nothing. -/
theorem batch_commits_single_undo_step {σ : Type} (h : History.HistoryManager σ)
    (s : σ) (x y : History.HAction σ) (label : String)
    (hexec : h.isExecuting = false) (hmax : 0 < h.maxSize) :
    (∃ b : History.HAction σ,
      b.type = "batch" ∧
      b.label = some label ∧
      (History.endBatch (History.pushAction (History.pushAction
          (History.startBatch h) x) y) label).undoStack =
        History.trimToMax h.maxSize (h.undoStack ++ [b]) ∧
      (History.endBatch (History.pushAction (History.pushAction
          (History.startBatch h) x) y) label).undoStack.length =
        min (h.undoStack.length + 1) h.maxSize ∧
      (History.endBatch (History.pushAction (History.pushAction
          (History.startBatch h) x) y) label).redoStack = [] ∧
      (History.undo (History.endBatch (History.pushAction (History.pushAction
          (History.startBatch h) x) y) label) s).2.1 =
        History.applyUndoFn x (History.applyUndoFn y s) ∧
      (History.undo (History.endBatch (History.pushAction (History.pushAction
          (History.startBatch h) x) y) label) s).2.2 = true) ∧
    (History.endBatch (History.startBatch h) label).undoStack = h.undoStack ∧
    (History.endBatch (History.startBatch h) label).redoStack = h.redoStack := by
  have e1 : History.pushAction (History.startBatch h) x =
      { h with
        batchMode := true
        batchActions := [History.wrapAction h.clock x]
        clock := h.clock + 1 } := by
    simp [History.pushAction, History.startBatch, hexec]
  have e2 : History.pushAction (History.pushAction (History.startBatch h) x) y =
      { h with
        batchMode := true
        batchActions :=
          [History.wrapAction h.clock x, History.wrapAction (h.clock + 1) y]
        clock := h.clock + 1 + 1 } := by
    rw [e1]
    simp [History.pushAction, hexec]
  have e3 : History.endBatch (History.pushAction (History.pushAction
      (History.startBatch h) x) y) label =
      { h with
        undoStack := History.trimToMax h.maxSize (h.undoStack ++
          [History.HAction.mk
            (some (History.historyGenerateId (h.clock + 1 + 1))) "batch"
            (some label) none none
            [History.wrapAction h.clock x, History.wrapAction (h.clock + 1) y]
            (some (h.clock + 1 + 1 + 1))])
        redoStack := []
        batchMode := false
        batchActions := []
        clock := h.clock + 1 + 1 + 1 + 1 } := by
    rw [e2]
    simp [History.endBatch, History.pushAction, History.wrapAction, hexec]
  refine ⟨⟨History.HAction.mk
      (some (History.historyGenerateId (h.clock + 1 + 1))) "batch"
      (some label) none none
      [History.wrapAction h.clock x, History.wrapAction (h.clock + 1) y]
      (some (h.clock + 1 + 1 + 1)), rfl, rfl, ?_, ?_, ?_, ?_, ?_⟩, ?_, ?_⟩
  · rw [e3]
  · rw [e3]
    simp only [trimToMax_eq_drop, List.length_drop, List.length_append,
      List.length_cons, List.length_nil]
    omega
  · rw [e3]
  · rw [e3]
    simp only [History.undo, trimToMax_eq_drop]
    rw [List.drop_append_of_le_length (by simp; omega), List.getLast?_concat]
    simp [History.HAction.type, History.HAction.actions, History.applyUndoFn,
      wrapAction_undoFn]
  · rw [e3]
    simp only [History.undo, trimToMax_eq_drop]
    rw [List.drop_append_of_le_length (by simp; omega), List.getLast?_concat]
  · simp [History.endBatch, History.startBatch]
  · simp [History.endBatch, History.startBatch]

/-- Witness for C6 on a fresh manager over `Nat` with two concrete
sub-actions: one batch entry is pushed and a single undo applies
`(· * 2)` then `(· + 1)`. -/
theorem batch_commits_single_undo_step_witness :
    (∃ b : History.HAction Nat,
      b.type = "batch" ∧
      b.label = some "L" ∧
      (History.endBatch (History.pushAction (History.pushAction
          (History.startBatch (History.mkHistoryManager Nat none)) xAct) yAct)
          "L").undoStack =
        History.trimToMax (History.mkHistoryManager Nat none).maxSize
          ((History.mkHistoryManager Nat none).undoStack ++ [b]) ∧
      (History.endBatch (History.pushAction (History.pushAction
          (History.startBatch (History.mkHistoryManager Nat none)) xAct) yAct)
          "L").undoStack.length =
        min ((History.mkHistoryManager Nat none).undoStack.length + 1)
          (History.mkHistoryManager Nat none).maxSize ∧
      (History.endBatch (History.pushAction (History.pushAction
          (History.startBatch (History.mkHistoryManager Nat none)) xAct) yAct)
          "L").redoStack = [] ∧
      (History.undo (History.endBatch (History.pushAction (History.pushAction
          (History.startBatch (History.mkHistoryManager Nat none)) xAct) yAct)
          "L") 5).2.1 =
        History.applyUndoFn xAct (History.applyUndoFn yAct 5) ∧
      (History.undo (History.endBatch (History.pushAction (History.pushAction
          (History.startBatch (History.mkHistoryManager Nat none)) xAct) yAct)
          "L") 5).2.2 = true) ∧
    (History.endBatch (History.startBatch (History.mkHistoryManager Nat none))
        "L").undoStack = (History.mkHistoryManager Nat none).undoStack ∧
    (History.endBatch (History.startBatch (History.mkHistoryManager Nat none))
        "L").redoStack = (History.mkHistoryManager Nat none).redoStack :=
  batch_commits_single_undo_step (History.mkHistoryManager Nat none) 5 xAct yAct
    "L" rfl (by norm_num [History.mkHistoryManager])

/-- When every keyframe time is `≤ t`, the search loop ends with the
last keyframe as `before` and no `after`. -/
theorem findSurrounding_all_le (t : ℚ) :
    ∀ (l : List Keyframes.Keyframe) (b : Option Keyframes.Keyframe),
      (∀ kf ∈ l, kf.time ≤ t) →
      Keyframes.findSurrounding t l b = (l.getLast?.or b, none) := by
  intro l
  induction l with
  | nil => intro b _; rfl
  | cons kf rest ih =>
    intro b hall
    have hkf : kf.time ≤ t := hall kf (List.mem_cons_self _ _)
    simp only [Keyframes.findSurrounding, if_pos hkf]
    rw [ih (some kf) fun k hk => hall k (List.mem_cons_of_mem _ hk)]
    cases rest with
    | nil => rfl
    | cons r rs =>
      have hcc : (kf :: r :: rs).getLast? = (r :: rs).getLast? := rfl
      rw [hcc]
      cases hq : (r :: rs).getLast? with
      | none => exact absurd hq (by simp)
      | some z => rfl

/-- In a sorted keyframe list, every time is bounded by the last
keyframe's time. -/
theorem time_le_getLast (l : List Keyframes.Keyframe)
    (hp : List.Pairwise (fun a b : Keyframes.Keyframe => a.time ≤ b.time) l)
    (z : Keyframes.Keyframe) (hz : l.getLast? = some z) :
    ∀ kf ∈ l, kf.time ≤ z.time := by
  induction l with
  | nil => cases hz
  | cons a rest ih =>
    intro kf hkf
    cases rest with
    | nil =>
      have hza : z = a := by
        simpa using hz.symm
      have hka : kf = a := by
        simpa using hkf
      rw [hza, hka]
    | cons r rs =>
      have hz' : (r :: rs).getLast? = some z := hz
      rcases List.mem_cons.1 hkf with rfl | h
      · exact (List.pairwise_cons.1 hp).1 z (List.mem_of_mem_getLast? hz')
      · exact ih (List.pairwise_cons.1 hp).2 hz' kf h

/-- In a sorted list, when keyframe `i` is at or before `t` and
keyframe `i+1` is strictly after it, the search loop returns exactly
that adjacent pair. -/
theorem findSurrounding_bracket (t : ℚ) :
    ∀ (l : List Keyframes.Keyframe),
      List.Pairwise (fun a b : Keyframes.Keyframe => a.time ≤ b.time) l →
      ∀ (i : Nat) (hi : i + 1 < l.length),
        (l.get ⟨i, Nat.lt_of_succ_lt hi⟩).time ≤ t →
        t < (l.get ⟨i + 1, hi⟩).time →
        ∀ b, Keyframes.findSurrounding t l b =
          (some (l.get ⟨i, Nat.lt_of_succ_lt hi⟩), some (l.get ⟨i + 1, hi⟩)) := by
  intro l
  induction l with
  | nil => intro _ i hi; simp at hi
  | cons k0 rest ih =>
    intro hp i hi hle hgt b
    cases i with
    | zero =>
      cases rest with
      | nil => simp at hi
      | cons k1 rs =>
        have hle' : k0.time ≤ t := hle
        have hgt' : t < k1.time := hgt
        simp only [Keyframes.findSurrounding]
        rw [if_pos hle', if_neg (not_le.2 hgt')]
        rfl
    | succ j =>
      have hj1 : j + 1 < rest.length := Nat.lt_of_succ_lt_succ hi
      have hle' : (rest.get ⟨j, Nat.lt_of_succ_lt hj1⟩).time ≤ t := hle
      have hgt' : t < (rest.get ⟨j + 1, hj1⟩).time := hgt
      have h0 : k0.time ≤ t := by
        refine le_trans ?_ hle'
        exact (List.pairwise_cons.1 hp).1
          (rest.get ⟨j, Nat.lt_of_succ_lt hj1⟩) (rest.get_mem _ _)
      simp only [Keyframes.findSurrounding]
      rw [if_pos h0]
      exact ih (List.pairwise_cons.1 hp).2 j hj1 hle' hgt' (some k0)

/-- Claim C2: `KeyframeTrack.getValueAtTime`, for every easing table
`ease`, every sorted keyframe list and every query time: a disabled or
empty track yields the property's declared default; a time before the
first keyframe holds the first keyframe's value; a time at or after
the last keyframe holds the last keyframe's value; and a time
bracketed by adjacent keyframes `kb`, `ka` yields
`kb.value + (ka.value - kb.value) * ease ((t - kb.time)/(ka.time - kb.time)) kb.easing`
— the easing applied is always the one attached to the earlier
keyframe of the pair. -/
theorem getValueAtTime_spec (ease : ℚ → String → ℚ)
    (track : Keyframes.KeyframeTrack) (t : ℚ)
    (hs : List.Pairwise (fun a b : Keyframes.Keyframe => a.time ≤ b.time)
      track.keyframes) :
    (¬track.enabled ∨ track.keyframes = [] →
      Keyframes.getValueAtTime ease track t = track.range.default) ∧
    (track.enabled = true →
      ∀ k0 ks, track.keyframes = k0 :: ks →
        (t < k0.time → Keyframes.getValueAtTime ease track t = k0.value) ∧
        (∀ klast, track.keyframes.getLast? = some klast → klast.time ≤ t →
          Keyframes.getValueAtTime ease track t = klast.value) ∧
        (∀ (i : Nat) (hi : i + 1 < track.keyframes.length)
            (kb ka : Keyframes.Keyframe),
          track.keyframes.get ⟨i, Nat.lt_of_succ_lt hi⟩ = kb →
          track.keyframes.get ⟨i + 1, hi⟩ = ka →
          kb.time ≤ t → t < ka.time →
          Keyframes.getValueAtTime ease track t =
            kb.value + (ka.value - kb.value) *
              ease ((t - kb.time) / (ka.time - kb.time)) kb.easing)) := by
  constructor
  · intro h
    rcases h with he | hnil
    · simp only [Keyframes.getValueAtTime, if_pos (Or.inl he)]
    · simp only [Keyframes.getValueAtTime]
      rw [if_pos (Or.inr (by rw [hnil]; rfl))]
  · intro hen k0 ks hkf
    have hguard : ¬(¬track.enabled ∨ track.keyframes.length = 0) := by
      rw [hen, hkf]
      simp
    refine ⟨?_, ?_, ?_⟩
    · intro hlt
      have hfs : Keyframes.findSurrounding t track.keyframes none =
          (none, some k0) := by
        rw [hkf]
        simp only [Keyframes.findSurrounding]
        rw [if_neg (not_le.2 hlt)]
      simp only [Keyframes.getValueAtTime, if_neg hguard, hfs]
    · intro klast hlast hle
      have hall : ∀ kf ∈ track.keyframes, kf.time ≤ t := fun kf hkf' =>
        le_trans (time_le_getLast track.keyframes hs klast hlast kf hkf') hle
      have hfs := findSurrounding_all_le t track.keyframes none hall
      rw [hlast] at hfs
      have hfs2 : Keyframes.findSurrounding t track.keyframes none =
          (some klast, none) := hfs
      simp only [Keyframes.getValueAtTime, if_neg hguard, hfs2]
    · intro i hi kb ka hkb hka hle hgt
      subst hkb
      subst hka
      have hfs := findSurrounding_bracket t track.keyframes hs i hi hle hgt none
      have hdur : ¬((track.keyframes.get ⟨i + 1, hi⟩).time -
          (track.keyframes.get ⟨i, Nat.lt_of_succ_lt hi⟩).time ≤ 0) := by
        push_neg
        have hbl := lt_of_le_of_lt hle hgt
        linarith
      simp only [Keyframes.getValueAtTime, if_neg hguard, hfs]
      rw [if_neg hdur]

/-- Witness for C2: on the sample track with keyframes (0, value 0)
and (2, value 1) and a linear easing table, the value at time 1 is
1/2, obtained through the bracketing formula with the earlier
keyframe's easing. -/
theorem getValueAtTime_spec_witness :
    Keyframes.getValueAtTime easeLin sampleKfTrack 1 = 1/2 := by
  have h := ((getValueAtTime_spec easeLin sampleKfTrack 1
      (by simp [sampleKfTrack])).2 rfl
      ⟨"a", 0, 0, "linear"⟩ [⟨"b", 2, 1, "linear"⟩] rfl).2.2 0
      (show 0 + 1 < 2 by norm_num)
      ⟨"a", 0, 0, "linear"⟩ ⟨"b", 2, 1, "linear"⟩ rfl rfl
      (show (0 : ℚ) ≤ 1 by norm_num) (show (1 : ℚ) < 2 by norm_num)
  rw [h]
  norm_num [easeLin]

/-- The recompute step is a `max`. -/
theorem bumpMax_eq_max (m : ℚ) (it : EditorStore.Item) :
    EditorStore.bumpMax m it = max m (it.startTime + it.duration) := by
  unfold EditorStore.bumpMax
  rcases le_or_lt (it.startTime + it.duration) m with h | h
  · rw [if_neg (not_lt.2 h), max_eq_left h]
  · rw [if_pos h, max_eq_right h.le]

/-- The per-track recompute loop is a `max` fold over the item ends. -/
theorem foldl_bumpMax_eq (l : List EditorStore.Item) :
    ∀ m : ℚ, l.foldl EditorStore.bumpMax m =
      (l.map fun it => it.startTime + it.duration).foldl max m := by
  induction l with
  | nil => intro m; rfl
  | cons it rest ih =>
    intro m
    simp only [List.foldl_cons, List.map_cons, bumpMax_eq_max, ih]

/-- The full duration recomputation is the `max` fold over all clip
ends. -/
theorem maxEndTime_eq_foldl (tracks : List EditorStore.Track) :
    EditorStore.maxEndTime tracks =
      (EditorStore.clipEnds tracks).foldl max 0 := by
  suffices h : ∀ (ts : List EditorStore.Track) (m : ℚ),
      ts.foldl EditorStore.trackMax m = (EditorStore.clipEnds ts).foldl max m by
    exact h tracks 0
  intro ts
  induction ts with
  | nil => intro m; rfl
  | cons tr rest ih =>
    intro m
    simp only [List.foldl_cons, EditorStore.clipEnds, List.flatMap_cons,
      List.foldl_append, EditorStore.trackMax, foldl_bumpMax_eq]
    exact ih _

/-- Any state whose duration was just recomputed from its tracks
satisfies the exact-duration predicate. -/
theorem durationExact_of_recompute (s' : EditorStore.EditorState)
    (h : s'.duration = EditorStore.maxEndTime s'.tracks) :
    EditorStore.DurationExact s' := by
  constructor
  · intro e he
    rw [h, maxEndTime_eq_foldl]
    exact foldl_max_le_of_mem _ e he 0
  · rw [h, maxEndTime_eq_foldl]
    rcases foldl_max_mem_or_init (EditorStore.clipEnds s'.tracks) 0 with h0 | hm
    · right; exact h0
    · left; exact hm

/-- Unfolding membership in the multiset of clip ends. -/
theorem mem_clipEnds_iff (tracks : List EditorStore.Track) (e : ℚ) :
    e ∈ EditorStore.clipEnds tracks ↔
      ∃ tr ∈ tracks, ∃ it ∈ tr.items, it.startTime + it.duration = e := by
  simp [EditorStore.clipEnds, List.mem_flatMap]

/-- A well-formed state has a non-negative stored duration. -/
theorem duration_nonneg (s : EditorStore.EditorState)
    (hwf : EditorStore.ItemsWF s) (hd : EditorStore.DurationExact s) :
    0 ≤ s.duration := by
  rcases hd.2 with hm | h0
  · rw [mem_clipEnds_iff] at hm
    obtain ⟨tr, htr, it, hit, he⟩ := hm
    have hw := hwf tr htr it hit
    rw [← he]
    linarith [hw.1, hw.2]
  · rw [h0]

/-- A valid `addMediaItem` call preserves item well-formedness and the
exact-duration invariant. -/
theorem inv_addMediaItem (s : EditorStore.EditorState) (trackId : String)
    (spec : EditorStore.ItemSpec)
    (hwf : EditorStore.ItemsWF s) (hd : EditorStore.DurationExact s)
    (hex : ∃ tr ∈ s.tracks, tr.id = trackId)
    (hspec : EditorStore.SpecValid spec) :
    EditorStore.ItemsWF (EditorStore.addMediaItem s trackId spec).1 ∧
    EditorStore.DurationExact (EditorStore.addMediaItem s trackId spec).1 := by
  obtain ⟨hsp_st, hsp_d⟩ := hspec
  have hdur' : (EditorStore.addMediaItem s trackId spec).1.duration =
      max s.duration (spec.startTime.getD s.duration + spec.duration.getD 5) := rfl
  have htracks' : (EditorStore.addMediaItem s trackId spec).1.tracks =
      s.tracks.map (fun track =>
        if track.id = trackId then
          { track with items := track.items ++
            [{ id := spec.id.getD (EditorStore.generateId s.nextId)
               name := spec.name.getD "Untitled"
               path := spec.path
               type := spec.type.getD "video"
               thumbnail := spec.thumbnail
               startTime := spec.startTime.getD s.duration
               duration := spec.duration.getD 5
               volume := spec.volume.getD 1
               pan := spec.pan.getD 0
               muted := spec.muted.getD false
               solo := spec.solo.getD false
               volumeKeyframes := spec.volumeKeyframes.getD [] }] }
        else track) := rfl
  have hnew_start : 0 ≤ spec.startTime.getD s.duration := by
    cases hst : spec.startTime with
    | none => simpa using duration_nonneg s hwf hd
    | some t0 => simpa using hsp_st t0 (by simp [hst])
  have hnew_dur : 0 < spec.duration.getD 5 := by
    cases hdu : spec.duration with
    | none => norm_num
    | some d0 => simpa using hsp_d d0 (by simp [hdu])
  constructor
  · intro tr' htr' it hit
    rw [htracks'] at htr'
    obtain ⟨tr, htr, hg⟩ := List.mem_map.1 htr'
    by_cases hid : tr.id = trackId
    · rw [if_pos hid] at hg
      subst hg
      rcases List.mem_append.1 hit with hold | hnw
      · exact hwf tr htr it hold
      · have hnw' := List.mem_singleton.1 hnw
        subst hnw'
        exact ⟨hnew_start, hnew_dur⟩
    · rw [if_neg hid] at hg
      subst hg
      exact hwf tr htr it hit
  · constructor
    · intro e he
      rw [htracks'] at he
      rw [mem_clipEnds_iff] at he
      obtain ⟨tr', htr', it, hit, hee⟩ := he
      obtain ⟨tr, htr, hg⟩ := List.mem_map.1 htr'
      rw [hdur']
      by_cases hid : tr.id = trackId
      · rw [if_pos hid] at hg
        subst hg
        rcases List.mem_append.1 hit with hold | hnw
        · have hmem : e ∈ EditorStore.clipEnds s.tracks :=
            (mem_clipEnds_iff _ _).2 ⟨tr, htr, it, hold, hee⟩
          exact le_trans (hd.1 e hmem) (le_max_left _ _)
        · have hnw' := List.mem_singleton.1 hnw
          subst hnw'
          rw [← hee]
          exact le_max_right _ _
      · rw [if_neg hid] at hg
        subst hg
        have hmem : e ∈ EditorStore.clipEnds s.tracks :=
          (mem_clipEnds_iff _ _).2 ⟨tr, htr, it, hit, hee⟩
        exact le_trans (hd.1 e hmem) (le_max_left _ _)
    · rw [hdur', htracks']
      rcases max_choice s.duration
        (spec.startTime.getD s.duration + spec.duration.getD 5) with hmx | hmx
      · rw [hmx]
        rcases hd.2 with hmem | h0
        · left
          rw [mem_clipEnds_iff] at hmem ⊢
          obtain ⟨tr, htr, it, hit, hee⟩ := hmem
          by_cases hid : tr.id = trackId
          · refine ⟨_, List.mem_map_of_mem _ htr, ?_⟩
            rw [if_pos hid]
            exact ⟨it, List.mem_append_left _ hit, hee⟩
          · refine ⟨_, List.mem_map_of_mem _ htr, ?_⟩
            rw [if_neg hid]
            exact ⟨it, hit, hee⟩
        · right; exact h0
      · rw [hmx]
        left
        obtain ⟨tr0, htr0, hid0⟩ := hex
        rw [mem_clipEnds_iff]
        refine ⟨_, List.mem_map_of_mem _ htr0, ?_⟩
        rw [if_pos hid0]
        exact ⟨_, List.mem_append_right _ (List.mem_singleton_self _), rfl⟩

/-- The `removeMediaItem` preserves both invariants (duration is fully
recomputed). -/
theorem inv_removeMediaItem (s : EditorStore.EditorState)
    (trackId itemId : String) (hwf : EditorStore.ItemsWF s) :
    EditorStore.ItemsWF (EditorStore.removeMediaItem s trackId itemId) ∧
    EditorStore.DurationExact (EditorStore.removeMediaItem s trackId itemId) := by
  constructor
  · intro tr' htr' it hit
    obtain ⟨tr, htr, hg⟩ := List.mem_map.1 htr'
    by_cases hid : tr.id = trackId
    · rw [if_pos hid] at hg
      subst hg
      exact hwf tr htr it (List.mem_of_mem_filter hit)
    · rw [if_neg hid] at hg
      subst hg
      exact hwf tr htr it hit
  · exact durationExact_of_recompute _ rfl

/-- The `moveMediaItem` preserves both invariants (the start time is
clamped to `≥ 0`, the duration recomputed). -/
theorem inv_moveMediaItem (s : EditorStore.EditorState)
    (trackId itemId : String) (t : ℚ) (hwf : EditorStore.ItemsWF s) :
    EditorStore.ItemsWF (EditorStore.moveMediaItem s trackId itemId t) ∧
    EditorStore.DurationExact (EditorStore.moveMediaItem s trackId itemId t) := by
  constructor
  · intro tr' htr' it hit
    obtain ⟨tr, htr, hg⟩ := List.mem_map.1 htr'
    by_cases hid : tr.id = trackId
    · rw [if_pos hid] at hg
      subst hg
      obtain ⟨it0, hit0, hh⟩ := List.mem_map.1 hit
      by_cases hiid : it0.id = itemId
      · rw [if_pos hiid] at hh
        subst hh
        exact ⟨le_max_left _ _, (hwf tr htr it0 hit0).2⟩
      · rw [if_neg hiid] at hh
        subst hh
        exact hwf tr htr it0 hit0
    · rw [if_neg hid] at hg
      subst hg
      exact hwf tr htr it hit
  · exact durationExact_of_recompute _ rfl

/-- The `updateItemDuration` preserves both invariants (the duration is
clamped to `≥ 0.1`, the aggregate recomputed). -/
theorem inv_updateItemDuration (s : EditorStore.EditorState)
    (trackId itemId : String) (d : ℚ) (hwf : EditorStore.ItemsWF s) :
    EditorStore.ItemsWF (EditorStore.updateItemDuration s trackId itemId d) ∧
    EditorStore.DurationExact (EditorStore.updateItemDuration s trackId itemId d) := by
  constructor
  · intro tr' htr' it hit
    obtain ⟨tr, htr, hg⟩ := List.mem_map.1 htr'
    by_cases hid : tr.id = trackId
    · rw [if_pos hid] at hg
      subst hg
      obtain ⟨it0, hit0, hh⟩ := List.mem_map.1 hit
      by_cases hiid : it0.id = itemId
      · rw [if_pos hiid] at hh
        subst hh
        refine ⟨(hwf tr htr it0 hit0).1, ?_⟩
        exact lt_of_lt_of_le (by norm_num) (le_max_left _ _)
      · rw [if_neg hiid] at hh
        subst hh
        exact hwf tr htr it0 hit0
    · rw [if_neg hid] at hg
      subst hg
      exact hwf tr htr it hit
  · exact durationExact_of_recompute _ rfl

/-- Any single valid store call preserves both invariants. -/
theorem inv_applyOp (s : EditorStore.EditorState) (op : EditorStore.EditOp)
    (hwf : EditorStore.ItemsWF s) (hd : EditorStore.DurationExact s)
    (hv : EditorStore.ValidOp s op) :
    EditorStore.ItemsWF (EditorStore.applyOp s op) ∧
    EditorStore.DurationExact (EditorStore.applyOp s op) := by
  cases op with
  | add trackId spec => exact inv_addMediaItem s trackId spec hwf hd hv.1 hv.2
  | remove trackId itemId => exact inv_removeMediaItem s trackId itemId hwf
  | move trackId itemId t => exact inv_moveMediaItem s trackId itemId t hwf
  | updateDuration trackId itemId d => exact inv_updateItemDuration s trackId itemId d hwf

/-- Any valid call sequence preserves both invariants. -/
theorem inv_applyOps (ops : List EditorStore.EditOp) :
    ∀ s : EditorStore.EditorState, EditorStore.ItemsWF s →
      EditorStore.DurationExact s → EditorStore.ValidOps s ops →
      EditorStore.ItemsWF (EditorStore.applyOps s ops) ∧
      EditorStore.DurationExact (EditorStore.applyOps s ops) := by
  induction ops with
  | nil => intro s hwf hd _; exact ⟨hwf, hd⟩
  | cons op ops ih =>
    intro s hwf hd hv
    have hstep := inv_applyOp s op hwf hd hv.1
    exact ih (EditorStore.applyOp s op) hstep.1 hstep.2 hv.2

/-- The initial empty timeline satisfies both invariants. -/
theorem inv_initialState :
    EditorStore.ItemsWF EditorStore.initialState ∧
    EditorStore.DurationExact EditorStore.initialState := by
  refine ⟨?_, ?_, ?_⟩
  · intro tr htr it hit
    simp only [EditorStore.initialState, List.mem_cons, List.not_mem_nil,
      or_false] at htr
    rcases htr with rfl | rfl <;> simp at hit
  · intro e he
    simp [EditorStore.clipEnds, EditorStore.initialState] at he
  · right; rfl

/-- Claim C1 (amended): starting from the initial empty timeline, after
every sequence of `addMediaItem` / `removeMediaItem` / `moveMediaItem`
/ `updateItemDuration` calls in which each add targets an existing
track and passes an in-domain clip spec (explicit `startTime ≥ 0`,
explicit `duration > 0`), the stored aggregate `duration` is exactly
the maximum over all clips on all tracks of `startTime + duration`:
every clip end is `≤ duration`, and `duration` is itself a clip end
unless no clip exists (then it is 0).  Prefixes of a valid sequence
are valid, so this holds after each call. -/
theorem duration_never_stale (ops : List EditorStore.EditOp)
    (hv : EditorStore.ValidOps EditorStore.initialState ops) :
    EditorStore.DurationExact
      (EditorStore.applyOps EditorStore.initialState ops) :=
  (inv_applyOps ops EditorStore.initialState inv_initialState.1
    inv_initialState.2 hv).2

/-- Witness for C1 (amended) on a concrete valid sequence: one add, a
move and a duration update. -/
theorem duration_never_stale_witness :
    EditorStore.DurationExact (EditorStore.applyOps EditorStore.initialState
      [.add "video-track" { duration := some 2 },
       .move "video-track" "item-0" 4,
       .updateDuration "video-track" "item-0" 3]) := by
  refine duration_never_stale _ ⟨⟨?_, ?_, ?_⟩, trivial, trivial, trivial⟩
  · exact ⟨{ id := "video-track", name := "Video Track", type := "video",
             items := [] },
      by simp [EditorStore.initialState], rfl⟩
  · intro t0 ht0
    simp at ht0
  · intro d0 hd0
    simp only [Option.mem_def, Option.some.injEq] at hd0
    rw [← hd0]
    norm_num

/-- Counterexample for C1 as stated: in the sequence
`add("video-track", {duration: 2}); add("bogus-track", {duration: 5})`
the second call matches no track, so the timeline still holds exactly
one clip ending at 2, yet the stored `duration` is 7 — not the maximum
clip end. -/
theorem duration_stale_after_unknown_track_add :
    EditorStore.clipEnds (EditorStore.applyOps EditorStore.initialState
      [.add "video-track" { duration := some 2 },
       .add "bogus-track" { duration := some 5 }]).tracks = [2] ∧
    (EditorStore.applyOps EditorStore.initialState
      [.add "video-track" { duration := some 2 },
       .add "bogus-track" { duration := some 5 }]).duration = 7 := by
  have e1 : EditorStore.applyOp EditorStore.initialState
      (.add "video-track" { duration := some 2 }) =
      { tracks :=
          [ { id := "video-track", name := "Video Track", type := "video",
              items :=
                [ { id := EditorStore.generateId 0, name := "Untitled",
                    path := none, type := "video", thumbnail := none,
                    startTime := 0, duration := 2 } ] },
            { id := "audio-track", name := "Audio Track", type := "audio",
              items := [] } ],
        selectedItemId := none, zoom := 1, scrollPosition := 0, playhead := 0,
        duration := 2, isPlaying := false, playbackRate := 1,
        filters := ⟨0, 0, 0⟩, transitions := [], projectId := none,
        projectName := "Untitled Project", isDirty := false, nextId := 1 } := by
    norm_num [EditorStore.applyOp, EditorStore.addMediaItem,
      EditorStore.initialState]
    decide
  have e3 : EditorStore.applyOps EditorStore.initialState
      [.add "video-track" { duration := some 2 },
       .add "bogus-track" { duration := some 5 }] =
      { tracks :=
          [ { id := "video-track", name := "Video Track", type := "video",
              items :=
                [ { id := EditorStore.generateId 0, name := "Untitled",
                    path := none, type := "video", thumbnail := none,
                    startTime := 0, duration := 2 } ] },
            { id := "audio-track", name := "Audio Track", type := "audio",
              items := [] } ],
        selectedItemId := none, zoom := 1, scrollPosition := 0, playhead := 0,
        duration := 7, isPlaying := false, playbackRate := 1,
        filters := ⟨0, 0, 0⟩, transitions := [], projectId := none,
        projectName := "Untitled Project", isDirty := false, nextId := 2 } := by
    show EditorStore.applyOp (EditorStore.applyOp EditorStore.initialState
      (.add "video-track" { duration := some 2 }))
      (.add "bogus-track" { duration := some 5 }) = _
    rw [e1]
    norm_num [EditorStore.applyOp, EditorStore.addMediaItem]
    decide
  rw [e3]
  constructor
  · norm_num [EditorStore.clipEnds]
  · rfl
